import Mathlib

/-!
# meteor-mfa: the package descriptor `package.js`

`package.js` consists of three top-level calls: `Package.describe`, `Npm.depends`
and `Package.onUse`.  The object literals are embedded as Lean data, the callback
handed to `Package.onUse` as a program over an arbitrary `api` object.
-/

namespace MeteorMfa

/-! ## Data of the descriptor -/

/-- The object literal passed to `Package.describe` (package.js, lines 1-8). -/
structure Description where
  name : String
  version : String
  summary : String
  git : String
  documentation : String
deriving DecidableEq, Repr

/-- Argument of `Package.describe`. -/
def describeArg : Description :=
  { name := "4fox4:mfa"
    version := "0.1.3"
    summary := "Multi Factor Authentication and Passwordless (supporting U2F, TOTP, and OTP)"
    git := "https://github.com/4fox4/meteor-mfa"
    documentation := "README.md" }

/-- The object literal passed to `Npm.depends` (package.js, lines 10-14), as its
property list in source order: key and pinned version. -/
def npmDependsArg : List (String × String) :=
  [ ("@webauthn/server", "0.1.3")
  , ("@webauthn/client", "0.1.3")
  , ("otplib", "12.0.0") ]

/-! ## The `api` object and the `Package.onUse` callback -/

/-- The methods of the `api` object that the callback invokes.  An `api` object is
arbitrary: its methods act in an arbitrary monad `m` (state, exceptions, ...) and
their results are discarded by the callback. -/
structure PackageApi (m : Type → Type) where
  versionsFrom : String → m Unit
  «use» : String → m Unit
  mainModule : String → String → m Unit

/-- The callback passed to `Package.onUse` (package.js, lines 16-24). -/
def onUse {m : Type → Type} [Monad m] (api : PackageApi m) : m Unit := do
  api.versionsFrom "2.5.1"
  api.use "ecmascript"
  api.use "accounts-base"
  api.use "random"
  api.use "check"
  api.mainModule "mfa-client.js" "client"
  api.mainModule "mfa-server.js" "server"

/-- One method call on the `api` object, with its arguments. -/
inductive ApiCall where
  | versionsFrom (release : String)
  | «use» (pkg : String)
  | mainModule (file : String) (arch : String)
deriving DecidableEq, Repr

/-- Performing a recorded call on an `api` object. -/
def ApiCall.perform {m : Type → Type} (api : PackageApi m) : ApiCall → m Unit
  | .versionsFrom r => api.versionsFrom r
  | .use p => api.use p
  | .mainModule f a => api.mainModule f a

/-- Performing a list of calls in order; the results are discarded. -/
def performAll {m : Type → Type} [Monad m] (api : PackageApi m) : List ApiCall → m Unit
  | [] => pure ()
  | [c] => c.perform api
  | c :: cs => do
      c.perform api
      performAll api cs

/-- An `api` object that only records the calls made on it. -/
def recorder : PackageApi (StateM (List ApiCall)) where
  versionsFrom r := modify (· ++ [ApiCall.versionsFrom r])
  «use» p := modify (· ++ [ApiCall.use p])
  mainModule f a := modify (· ++ [ApiCall.mainModule f a])

/-- The sequence of calls the callback makes, observed on the recording `api`. -/
def onUseTrace : List ApiCall :=
  ((onUse recorder).run []).2

/-- A call that declares a dependency: `api.versionsFrom` or `api.use`. -/
def ApiCall.isDependencyDeclaration : ApiCall → Bool
  | .versionsFrom _ => true
  | .use _ => true
  | .mainModule _ _ => false

/-- A call that registers an entry module: `api.mainModule`. -/
def ApiCall.isEntryModule : ApiCall → Bool
  | .mainModule _ _ => true
  | _ => false

/-- The `(file, architecture)` pairs registered with `api.mainModule`, in order. -/
def mainModules : List ApiCall → List (String × String)
  | [] => []
  | .mainModule f a :: cs => (f, a) :: mainModules cs
  | _ :: cs => mainModules cs

/-- The package names declared with `api.use`, in order. -/
def usedPackages : List ApiCall → List String
  | [] => []
  | .use p :: cs => p :: usedPackages cs
  | _ :: cs => usedPackages cs

/-- The releases given to `api.versionsFrom`, in order. -/
def versionsFromArgs : List ApiCall → List String
  | [] => []
  | .versionsFrom r :: cs => r :: versionsFromArgs cs
  | _ :: cs => versionsFromArgs cs

/-- The last file registered with `api.mainModule` for an architecture: a later
registration for the same architecture replaces an earlier one. -/
def mainModuleFor (calls : List ApiCall) (arch : String) : Option String :=
  ((mainModules calls).reverse.find? (fun p => p.2 == arch)).map Prod.fst

/-- Every call satisfying `p` comes before every call satisfying `q`. -/
def allBefore (p q : ApiCall → Bool) (l : List ApiCall) : Prop :=
  ∀ i j : Fin l.length, p (l.get i) = true → q (l.get j) = true → i < j

instance (p q : ApiCall → Bool) (l : List ApiCall) : Decidable (allBefore p q l) := by
  unfold allBefore
  infer_instance

/-- Selector for `api.versionsFrom` calls. -/
def ApiCall.isVersionsFrom : ApiCall → Bool
  | .versionsFrom _ => true
  | _ => false

/-- Selector for `api.use` calls. -/
def ApiCall.isUse : ApiCall → Bool
  | .use _ => true
  | _ => false

/-! ## The file as a whole -/

/-- The two globals the file calls into: `Package` (`describe`, `onUse`) and `Npm`
(`depends`).  The callback handed to `Package.onUse` is a program over an `api`
object acting in a monad `n`. -/
structure PackageHost (m n : Type → Type) where
  describe : Description → m Unit
  depends : List (String × String) → m Unit
  onUse : (PackageApi n → n Unit) → m Unit

/-- The whole of `package.js`: its three top-level statements. -/
def packageJs {m n : Type → Type} [Monad m] [Monad n] (host : PackageHost m n) : m Unit := do
  host.describe describeArg
  host.depends npmDependsArg
  host.onUse onUse

/-- One top-level statement of the file as observed by a recording host; a
registered callback is observed through the calls it makes on the recording `api`. -/
inductive TopLevel where
  | describe (d : Description)
  | npmDepends (deps : List (String × String))
  | onUse (calls : List ApiCall)
deriving DecidableEq, Repr

/-- A host that only records the top-level statements. -/
def hostRecorder : PackageHost (StateM (List TopLevel)) (StateM (List ApiCall)) where
  describe d := modify (· ++ [TopLevel.describe d])
  depends ds := modify (· ++ [TopLevel.npmDepends ds])
  onUse cb := modify (· ++ [TopLevel.onUse ((cb recorder).run []).2])

/-- The top-level statements of the file, observed on the recording host. -/
def packageJsTrace : List TopLevel :=
  ((packageJs hostRecorder).run []).2

/-- The version pinned for an npm dependency. -/
def npmVersion (key : String) : Option String :=
  npmDependsArg.lookup key

/-- Splitting a text into its maximal runs of letters and digits; `cur` holds the
current run, reversed. -/
def wordsAux : List Char → List Char → List String
  | [], cur => if cur.isEmpty then [] else [String.mk cur.reverse]
  | c :: cs, cur =>
      if c.isAlphanum then wordsAux cs (c :: cur)
      else if cur.isEmpty then wordsAux cs []
      else String.mk cur.reverse :: wordsAux cs []

/-- The words of the summary given to `Package.describe`. -/
def summaryWords : List String :=
  wordsAux describeArg.summary.toList []

end MeteorMfa

/-!
# The verification core

The entry modules `mfa-client.js` and `mfa-server.js` registered by the descriptor
are not part of the given source.  The definitions below follow the wording of the
specification (sections 3 to 5 and 8) for the factor-verification core.  Cryptographic
primitives (signature validation, the time-step code derivation, the OTP hash) are
parameters.
-/

namespace MfaCore

/-- Modelled from the spec: the factor types of an Enrolled Factor (section 3); the
implementation in `mfa-server.js` is missing. -/
inductive FactorType where
  | WebAuthnKey
  | TotpSecret
  | OtpHash
deriving DecidableEq, Repr

/-- Modelled from the spec: the outcomes a verification reports (sections 3, 4.3 and
7): `Accepted`, the rejections `Mismatch`, `Expired`, `Replayed`, `NotEnrolled`, and
the coordinator's `LockedOut`; the implementation in `mfa-server.js` is missing. -/
inductive Outcome where
  | Accepted
  | Mismatch
  | Expired
  | Replayed
  | NotEnrolled
  | LockedOut
deriving DecidableEq, Repr

/-- Modelled from the spec: the Verification Result of section 3, an outcome and an
optional updated counter; the implementation in `mfa-server.js` is missing. -/
structure VerificationResult where
  outcome : Outcome
  updatedCounter : Option Nat
deriving DecidableEq, Repr

/-- Modelled from the spec: the Enrolled Factor record of section 3 (missing from the
source).  `secret` is the secret material (public key, TOTP secret or OTP
hash), `counter` is used by WebAuthn only, `usedSteps` holds the TOTP time-steps
marked single-use (section 4.3). -/
structure EnrolledFactor where
  userId : Nat
  credentialId : Nat
  factorType : FactorType
  secret : Nat
  label : String
  createdAt : Nat
  lastUsedAt : Nat
  counter : Nat
  usedSteps : List Nat
deriving DecidableEq, Repr

/-- Modelled from the spec: the Challenge record of section 3 (missing from the
source). -/
structure Challenge where
  id : Nat
  userId : Nat
  factorType : FactorType
  nonce : Nat
  issuedAt : Nat
  expiresAt : Nat
  consumed : Bool
deriving DecidableEq, Repr

/-- Modelled from the spec: the client's signed WebAuthn assertion (section 4.3), with
the counter it submits; the implementation is missing from the source. -/
structure Assertion where
  signature : Nat
  counter : Nat
deriving DecidableEq, Repr

/-! ## Credential Store (section 4.1) -/

/-- Modelled from the spec: the errors of the Credential Store contract (sections 4.1
and 7); the store itself is missing from the source. -/
inductive StoreError where
  | DuplicateFactor
  | StaleCounter
  | NotEnrolled
deriving DecidableEq, Repr

/-- Modelled from the spec: Credential Store records keyed by credential id (section
6); the store is missing from the source. -/
abbrev CredentialStore := Nat → Option EnrolledFactor

/-- Modelled from the spec: `updateCounter(credentialId, newCounter)` of section 4.1,
which fails with `StaleCounter` if `newCounter ≤ current`; missing from the source. -/
def updateCounter (st : CredentialStore) (credentialId newCounter : Nat) :
    Except StoreError CredentialStore :=
  match st credentialId with
  | none => .error .NotEnrolled
  | some f =>
      if newCounter ≤ f.counter then .error .StaleCounter
      else .ok (fun j => if j = credentialId then some { f with counter := newCounter } else st j)

/-! ## Challenge Generator (section 4.2) -/

/-- Modelled from the spec: the Challenge table keyed by challenge id (section 6);
missing from the source. -/
abbrev ChallengeTable := Nat → Option Challenge

/-- Modelled from the spec: the table after the Challenge Generator has issued `c`
(section 4.2): the challenge is stored unconsumed under its id.  Missing from the
source. -/
def issue (tbl : ChallengeTable) (c : Challenge) : ChallengeTable :=
  fun j => if j = c.id then some { c with consumed := false } else tbl j

/-- Modelled from the spec: `consume(challengeId)` of section 4.2, the per-key
compare-and-swap of section 5, one atomic step on the table: the caller succeeds
exactly when it observes the transition of `consumed` from false to true.  Missing
from the source. -/
def consume (tbl : ChallengeTable) (challengeId : Nat) : Bool × ChallengeTable :=
  match tbl challengeId with
  | none => (false, tbl)
  | some c =>
      if c.consumed then (false, tbl)
      else (true, fun j => if j = challengeId then some { c with consumed := true } else tbl j)

/-- Modelled from the spec: where a caller racing for a Challenge stands (sections
4.2, 4.3 and 5, missing from the source).  A caller first looks the Challenge up,
then performs the compare-and-swap, then has its result. -/
inductive Phase where
  | start
  | found
  | done (won : Bool)
deriving DecidableEq, Repr

/-- Modelled from the spec: the state of a race (section 5, missing from the source):
the shared Challenge table, the phase of every caller, and the results returned so
far, each as `(caller, challengeId, succeeded)` in the order of return. -/
structure Race where
  table : ChallengeTable
  phase : Nat → Phase
  results : List (Nat × Nat × Bool)

/-- The race in which no caller has taken a step yet. -/
def Race.init (tbl : ChallengeTable) : Race :=
  { table := tbl, phase := fun _ => Phase.start, results := [] }

/-- The caller returns: its phase becomes `done`, its result is recorded. -/
def Race.finish (s : Race) (caller cid : Nat) (tbl : ChallengeTable) (won : Bool) : Race :=
  { table := tbl
    phase := fun k => if k = caller then Phase.done won else s.phase k
    results := s.results ++ [(caller, cid, won)] }

/-- Modelled from the spec: one step of one caller (sections 4.2 and 5, missing from
the source); `target` gives the challenge id each caller is after.  The first step
reads the table: a Challenge that is absent or seen consumed fails the caller at
once, otherwise the caller goes on.  The second step is the compare-and-swap
`consume`, which decides on the table as it is at that moment, not as it was read.
A caller that has returned takes no further step. -/
def consumeStep (target : Nat → Nat) (s : Race) (caller : Nat) : Race :=
  match s.phase caller with
  | Phase.start =>
      match s.table (target caller) with
      | none => s.finish caller (target caller) s.table false
      | some c =>
          if c.consumed then s.finish caller (target caller) s.table false
          else { s with phase := fun k => if k = caller then Phase.found else s.phase k }
  | Phase.found =>
      s.finish caller (target caller) (consume s.table (target caller)).2
        (consume s.table (target caller)).1
  | Phase.done _ => s

/-- Modelled from the spec: a concurrency pattern (section 5, missing from the
source): the order in which the callers' steps take effect, any caller's read and
compare-and-swap being separated by any number of steps of the others. -/
def runRace (target : Nat → Nat) (s : Race) : List Nat → Race
  | [] => s
  | caller :: rest => runRace target (consumeStep target s caller) rest

/-- The callers that succeeded in consuming challenge `cid`. -/
def winners (cid : Nat) (results : List (Nat × Nat × Bool)) : List Nat :=
  (results.filter (fun r => r.2.1 == cid && r.2.2)).map Prod.fst

/-- The callers that failed to consume challenge `cid`. -/
def losers (cid : Nat) (results : List (Nat × Nat × Bool)) : List Nat :=
  (results.filter (fun r => r.2.1 == cid && !r.2.2)).map Prod.fst

/-- A challenge id that can no longer be consumed: absent or already consumed. -/
def spent (tbl : ChallengeTable) (cid : Nat) : Prop :=
  ∀ c, tbl cid = some c → c.consumed = true

/-- The results agree with the phases: every recorded result belongs to a caller that
has returned with it, every caller that has returned is recorded, and once only. -/
structure LogInv (target : Nat → Nat) (s : Race) : Prop where
  sound : ∀ r ∈ s.results, s.phase r.1 = Phase.done r.2.2 ∧ r.2.1 = target r.1
  complete : ∀ k b, s.phase k = Phase.done b → (k, target k, b) ∈ s.results
  once : (s.results.map Prod.fst).Nodup

/-- The table and the results agree on challenge `cid`: it is present; while it is
unconsumed it has no winner and none of its callers has returned; once it is
consumed it has exactly one winner. -/
structure FlagInv (target : Nat → Nat) (cid : Nat) (s : Race) : Prop where
  present : ∃ c, s.table cid = some c
  unconsumed : ∀ c, s.table cid = some c → c.consumed = false →
    winners cid s.results = [] ∧ ∀ k b, target k = cid → s.phase k ≠ Phase.done b
  consumed : ∀ c, s.table cid = some c → c.consumed = true →
    (winners cid s.results).length = 1

/-! ## Verifier (section 4.3) -/

/-- Modelled from the spec: the WebAuthn sub-protocol of sections 3, 4.3 and 8
(missing from the source).  The signature over the challenge nonce is validated with
the stored public key.  A submitted counter that is not strictly greater than the
stored counter always yields `Replayed` (section 8); with a greater counter a valid
signature is `Accepted`, the submitted counter becoming the updated counter, and a
wrong signature is a `Mismatch`. -/
def verifyWebAuthn (sigValid : Nat → Nat → Assertion → Bool)
    (f : EnrolledFactor) (ch : Challenge) (a : Assertion) : VerificationResult :=
  let signed := sigValid f.secret ch.nonce a
  if a.counter ≤ f.counter then { outcome := .Replayed, updatedCounter := none }
  else if signed then { outcome := .Accepted, updatedCounter := some a.counter }
  else { outcome := .Mismatch, updatedCounter := none }

/-- Modelled from the spec: WebAuthn verification against the Credential Store
(sections 2 and 4.3, missing from the source): look the factor up, verify, and on
success update the counter via `updateCounter`; a stale counter is `Replayed`. -/
def verifyWebAuthnStored (sigValid : Nat → Nat → Assertion → Bool)
    (st : CredentialStore) (credentialId : Nat) (ch : Challenge) (a : Assertion) :
    VerificationResult × CredentialStore :=
  match st credentialId with
  | none => ({ outcome := .NotEnrolled, updatedCounter := none }, st)
  | some f =>
      let r := verifyWebAuthn sigValid f ch a
      match r.updatedCounter with
      | none => (r, st)
      | some n =>
          match updateCounter st credentialId n with
          | .ok st' => (r, st')
          | .error _ => ({ outcome := .Replayed, updatedCounter := none }, st)

/-- Modelled from the spec: the bounded symmetric window of time-steps around the
current one (sections 3 and 4.3, missing from the source): the steps from
`now - skew` to `now + skew`. -/
def totpWindow (skew now : Nat) : List Nat :=
  List.range' (now - skew) (now + skew + 1 - (now - skew))

/-- Modelled from the spec: the TOTP sub-protocol of section 4.3 (missing from the
source).  `totp secret step` is the standard time-step code derivation.  The submitted
code is compared with the code of every step of the window; no match is a `Mismatch`,
a match on a step already marked single-use is `Replayed`, otherwise the code is
`Accepted` and each accepted step is marked. -/
def verifyTotp (totp : Nat → Nat → Nat) (skew : Nat)
    (f : EnrolledFactor) (now code : Nat) : Outcome × EnrolledFactor :=
  let accepted := (totpWindow skew now).filter (fun t => totp f.secret t == code)
  if accepted.isEmpty then (.Mismatch, f)
  else if accepted.any (fun t => decide (t ∈ f.usedSteps)) then (.Replayed, f)
  else (.Accepted, { f with usedSteps := accepted ++ f.usedSteps })

/-- Modelled from the spec: the OTP sub-protocol of section 4.3 (missing from the
source).  An expired Challenge yields `Expired` (sections 3 and 8); otherwise the
Challenge is consumed atomically before the comparison, a Challenge that cannot be
consumed is `Replayed`, and the submitted code is compared with the stored hash. -/
def verifyOtp (hash : Nat → Nat) (tbl : ChallengeTable) (now : Nat)
    (f : EnrolledFactor) (ch : Challenge) (code : Nat) : Outcome × ChallengeTable :=
  if ch.expiresAt < now then (.Expired, tbl)
  else
    let r := consume tbl ch.id
    if r.1 then
      if hash code = f.secret then (.Accepted, r.2) else (.Mismatch, r.2)
    else (.Replayed, r.2)

/-! ## Factor Coordinator (section 4.4) -/

/-- Modelled from the spec: the states of a login attempt (section 4.4, missing from
the source); `Rejected` carries the reason. -/
inductive CoordState where
  | Idle
  | AwaitingFactor
  | Verifying
  | Accepted
  | Rejected (reason : Outcome)
deriving DecidableEq, Repr

/-- Modelled from the spec: a login attempt of the Factor Coordinator (section 4.4,
missing from the source): its state, the mismatches so far and the configured
attempt limit. -/
structure Attempt where
  state : CoordState
  mismatches : Nat
  attemptLimit : Nat
deriving DecidableEq, Repr

/-- Modelled from the spec: a login attempt before `startChallenge`, in state `Idle`
with no mismatch yet (section 4.4, missing from the source). -/
def Attempt.fresh (attemptLimit : Nat) : Attempt :=
  { state := .Idle, mismatches := 0, attemptLimit := attemptLimit }

/-- Modelled from the spec: `startChallenge`, the transition Idle→AwaitingFactor of
section 4.4 (missing from the source); `none` where the transition is not enabled. -/
def startChallenge (a : Attempt) : Option Attempt :=
  match a.state with
  | .Idle => some { a with state := .AwaitingFactor }
  | _ => none

/-- Modelled from the spec: the transition out of `Verifying` on the Verifier's
outcome (section 4.4, missing from the source).  A `Mismatch` returns the attempt to
`AwaitingFactor` while the mismatches stay below the attempt limit, and otherwise
makes it a terminal `Rejected` with `LockedOut` semantics. -/
def onVerdict (a : Attempt) (v : Outcome) : Outcome × Attempt :=
  match v with
  | .Accepted => (.Accepted, { a with state := .Accepted })
  | .Mismatch =>
      if a.mismatches + 1 < a.attemptLimit then
        (.Mismatch, { a with state := .AwaitingFactor, mismatches := a.mismatches + 1 })
      else
        (.Mismatch, { a with state := .Rejected .LockedOut, mismatches := a.mismatches + 1 })
  | o => (o, { a with state := .Rejected o })

/-- Modelled from the spec: `submitResponse` of section 4.4 (missing from the
source).  In `AwaitingFactor` the attempt goes to `Verifying` and the Verifier decides;
a locked-out attempt answers `LockedOut` without consulting the Verifier; `none`
where the state machine has no transition. -/
def submitResponse {ρ : Type} (verify : ρ → Outcome) (a : Attempt) (resp : ρ) :
    Option (Outcome × Attempt) :=
  match a.state with
  | .AwaitingFactor => some (onVerdict { a with state := .Verifying } (verify resp))
  | .Rejected .LockedOut => some (.LockedOut, a)
  | _ => none

/-! ## Sample data -/

/-- A toy signature check: the signature is the sum of public key and nonce. -/
def sampleSigValid (publicKey nonce : Nat) (a : Assertion) : Bool :=
  a.signature == publicKey + nonce

/-- A toy time-step code derivation. -/
def sampleTotp (secret step : Nat) : Nat :=
  (secret * 31 + step * 7) % 1000000

/-- A toy hash. -/
def sampleHash (code : Nat) : Nat :=
  code * 2 + 1

/-- An enrolled WebAuthn key with stored counter 10. -/
def sampleKey : EnrolledFactor :=
  { userId := 1, credentialId := 7, factorType := .WebAuthnKey, secret := 5, label := "key",
    createdAt := 0, lastUsedAt := 0, counter := 10, usedSteps := [] }

/-- An enrolled TOTP secret on which no code has been accepted yet. -/
def sampleTotpFactor : EnrolledFactor :=
  { userId := 1, credentialId := 8, factorType := .TotpSecret, secret := 1234, label := "app",
    createdAt := 0, lastUsedAt := 0, counter := 0, usedSteps := [] }

/-- An enrolled OTP hash, the hash of the code 4711. -/
def sampleOtpFactor : EnrolledFactor :=
  { userId := 1, credentialId := 9, factorType := .OtpHash, secret := 9423, label := "mail",
    createdAt := 0, lastUsedAt := 0, counter := 0, usedSteps := [] }

/-- A WebAuthn challenge with nonce 99. -/
def sampleChallenge : Challenge :=
  { id := 3, userId := 1, factorType := .WebAuthnKey, nonce := 99, issuedAt := 0,
    expiresAt := 300, consumed := false }

/-- An OTP challenge that expires at time 300. -/
def sampleOtpChallenge : Challenge :=
  { id := 4, userId := 1, factorType := .OtpHash, nonce := 17, issuedAt := 0,
    expiresAt := 300, consumed := false }

/-- A store holding only the sample key. -/
def sampleStore : CredentialStore :=
  fun j => if j = 7 then some sampleKey else none

/-- A toy Verifier: the correct code is 4711. -/
def sampleVerify (code : Nat) : Outcome :=
  if code = 4711 then Outcome.Accepted else Outcome.Mismatch

/-- Callers 12, 13 and 14 are after the sample OTP challenge (id 4), every other
caller after id 5. -/
def sampleTarget (caller : Nat) : Nat :=
  if caller = 12 ∨ caller = 13 ∨ caller = 14 then 4 else 5

/-- A pattern in which callers 12 and 13 both read the challenge before either
swaps, caller 11 runs in between, and caller 14 arrives late. -/
def sampleSchedule : List Nat :=
  [12, 13, 11, 13, 12, 11, 14, 14]

/-- An empty challenge table. -/
def emptyTable : ChallengeTable :=
  fun _ => none

end MfaCore

/-!
# Theorems about the package descriptor
-/

namespace MeteorMfa

/-- The calls recorded on the recording `api`, written out. -/
theorem onUseTrace_eq :
    onUseTrace =
      [ ApiCall.versionsFrom "2.5.1", ApiCall.use "ecmascript", ApiCall.use "accounts-base",
        ApiCall.use "random", ApiCall.use "check",
        ApiCall.mainModule "mfa-client.js" "client",
        ApiCall.mainModule "mfa-server.js" "server" ] := rfl

/-- C1: the descriptor has no algorithmic content.  On every `api` object (acting in
any monad) the `Package.onUse` callback performs the one fixed sequence of calls that
the recording `api` observes; each of these calls is a dependency declaration
(`api.versionsFrom`, `api.use`) or an entry-module registration; exactly two entry
modules are registered, `mfa-client.js` for `client` and `mfa-server.js` for `server`;
and the whole file consists of the three top-level statements `Package.describe`,
`Npm.depends` and `Package.onUse` with that callback, nothing else being defined. -/
theorem onUse_fixed_call_sequence :
    (∀ (m : Type → Type) [Monad m] (api : PackageApi m),
        onUse api = performAll api onUseTrace) ∧
    (∀ c ∈ onUseTrace, c.isDependencyDeclaration = true ∨ c.isEntryModule = true) ∧
    mainModules onUseTrace = [("mfa-client.js", "client"), ("mfa-server.js", "server")] ∧
    packageJsTrace =
      [TopLevel.describe describeArg, TopLevel.npmDepends npmDependsArg,
        TopLevel.onUse onUseTrace] := by
  refine ⟨fun m _ api => rfl, ?_, rfl, rfl⟩
  intro c hc
  rw [onUseTrace_eq] at hc
  simp only [List.mem_cons, List.mem_singleton, List.not_mem_nil, or_false] at hc
  rcases hc with h | h | h | h | h | h | h <;> subst h <;> simp [ApiCall.isDependencyDeclaration, ApiCall.isEntryModule]

/-- C2: the map passed to `Npm.depends` has exactly three keys, all different: the
U2F/WebAuthn libraries `@webauthn/server` and `@webauthn/client`, both pinned to
`0.1.3`, and the TOTP/OTP library `otplib`, pinned to `12.0.0`; the key of the TOTP
library is none of the keys of the U2F library. -/
theorem npmDepends_totp_and_u2f_libraries :
    npmDependsArg.map Prod.fst = ["@webauthn/server", "@webauthn/client"] ++ ["otplib"] ∧
    npmDependsArg.length = 3 ∧
    (npmDependsArg.map Prod.fst).Nodup ∧
    npmVersion "otplib" = some "12.0.0" ∧
    npmVersion "@webauthn/server" = some "0.1.3" ∧
    npmVersion "@webauthn/client" = some "0.1.3" ∧
    (∀ k, npmVersion k ≠ none →
      k = "otplib" ∨ k = "@webauthn/server" ∨ k = "@webauthn/client") ∧
    List.Disjoint ["otplib"] ["@webauthn/server", "@webauthn/client"] := by
  refine ⟨rfl, rfl, by decide, by decide, by decide, by decide, ?_, ?_⟩
  · intro k hk
    by_contra hne
    push_neg at hne
    apply hk
    have h1 : (k == "@webauthn/server") = false := by simpa using hne.2.1
    have h2 : (k == "@webauthn/client") = false := by simpa using hne.2.2
    have h3 : (k == "otplib") = false := by simpa using hne.1
    simp [npmVersion, npmDependsArg, List.lookup, h1, h2, h3]
  · intro k hk hk'
    simp only [List.mem_singleton] at hk
    subst hk
    revert hk'
    decide

/-- C3: the summary given to `Package.describe` names the three factor types `U2F`,
`TOTP` and `OTP`, each as a word of its own, and the packages declared with `api.use`
in the `Package.onUse` callback include the accounts framework `accounts-base`. -/
theorem summary_names_factors_and_accounts_base_used :
    "U2F" ∈ summaryWords ∧ "TOTP" ∈ summaryWords ∧ "OTP" ∈ summaryWords ∧
    "accounts-base" ∈ usedPackages onUseTrace := by
  decide

/-- C9: the two `api.mainModule` registrations of the callback target the different
architectures `client` and `server` and different files; every architecture receives
at most one main module, and after the callback each of the two architectures still
has the file registered for it. -/
theorem mainModule_registrations_do_not_collide :
    mainModules onUseTrace = [("mfa-client.js", "client"), ("mfa-server.js", "server")] ∧
    ((mainModules onUseTrace).map Prod.snd).Nodup ∧
    ((mainModules onUseTrace).map Prod.fst).Nodup ∧
    (∀ arch, ((mainModules onUseTrace).map Prod.snd).count arch ≤ 1) ∧
    mainModuleFor onUseTrace "client" = some "mfa-client.js" ∧
    mainModuleFor onUseTrace "server" = some "mfa-server.js" := by
  have hnd : ((mainModules onUseTrace).map Prod.snd).Nodup := by decide
  exact ⟨rfl, hnd, by decide, fun arch => List.nodup_iff_count_le_one.mp hnd arch,
    by decide, by decide⟩

/-- C10: in the calls of the callback, `api.versionsFrom` is called exactly once, with
`2.5.1`, before every `api.use`; every `api.use` comes before every `api.mainModule`;
the packages used are `ecmascript`, `accounts-base`, `random` and `check`, each
declared once, and none carries a version constraint (no `@version` suffix; the call
passes the name alone). -/
theorem onUse_call_order :
    versionsFromArgs onUseTrace = ["2.5.1"] ∧
    allBefore ApiCall.isVersionsFrom ApiCall.isUse onUseTrace ∧
    allBefore ApiCall.isUse ApiCall.isEntryModule onUseTrace ∧
    usedPackages onUseTrace = ["ecmascript", "accounts-base", "random", "check"] ∧
    (usedPackages onUseTrace).Nodup ∧
    (∀ p ∈ usedPackages onUseTrace, '@' ∉ p.toList) := by
  refine ⟨rfl, by decide, by decide, rfl, by decide, by decide⟩

end MeteorMfa

/-!
# Theorems about the verification core
-/

namespace MfaCore

/-! ## WebAuthn -/

/-- C4: for every enrolled WebAuthn factor with stored counter `c` and every client
assertion whose submitted counter `s` satisfies `s ≤ c`, verification returns
`Replayed`, never `Accepted`, whether or not the signature over the challenge is
valid, and the Credential Store is left as it was; an assertion is `Accepted` only if
`s > c` (and its signature is valid), and then the updated counter is `s` and the
Credential Store holds `s` as the factor's counter. -/
theorem verifyWebAuthn_replay_detection (sigValid : Nat → Nat → Assertion → Bool)
    (f : EnrolledFactor) (ch : Challenge) (a : Assertion) :
    (a.counter ≤ f.counter →
      (verifyWebAuthn sigValid f ch a).outcome = Outcome.Replayed ∧
      (verifyWebAuthn sigValid f ch a).outcome ≠ Outcome.Accepted ∧
      ∀ st : CredentialStore, st f.credentialId = some f →
        verifyWebAuthnStored sigValid st f.credentialId ch a
          = ({ outcome := Outcome.Replayed, updatedCounter := none }, st)) ∧
    ((verifyWebAuthn sigValid f ch a).outcome = Outcome.Accepted ↔
      f.counter < a.counter ∧ sigValid f.secret ch.nonce a = true) ∧
    ((verifyWebAuthn sigValid f ch a).outcome = Outcome.Accepted →
      (verifyWebAuthn sigValid f ch a).updatedCounter = some a.counter ∧
      ∀ st : CredentialStore, st f.credentialId = some f →
        ∃ st', verifyWebAuthnStored sigValid st f.credentialId ch a
            = (verifyWebAuthn sigValid f ch a, st') ∧
          st' f.credentialId = some { f with counter := a.counter }) := by
  refine ⟨?_, ?_, ?_⟩
  · intro hs
    refine ⟨by simp [verifyWebAuthn, hs], by simp [verifyWebAuthn, hs], ?_⟩
    intro st hst
    simp [verifyWebAuthnStored, verifyWebAuthn, hst, hs]
  · unfold verifyWebAuthn
    by_cases hs : a.counter ≤ f.counter
    · simp [hs]
    · by_cases hv : sigValid f.secret ch.nonce a = true
      · simp [hs, hv]; omega
      · simp [hs, hv]
  · intro hacc
    have hs : ¬ a.counter ≤ f.counter := by
      intro hs
      simp [verifyWebAuthn, hs] at hacc
    have hv : sigValid f.secret ch.nonce a = true := by
      by_contra hv
      simp [verifyWebAuthn, hs, hv] at hacc
    refine ⟨by simp [verifyWebAuthn, hs, hv], ?_⟩
    intro st hst
    simp [verifyWebAuthnStored, verifyWebAuthn, hst, hs, hv, updateCounter]

/-- Instances of C4 on the sample key (stored counter 10): an assertion with counter
10 is `Replayed` with a valid signature (104) and with a wrong one (0); a validly
signed assertion with counter 11 is `Accepted` and the store then holds counter 11. -/
theorem verifyWebAuthn_replay_detection_witness :
    sampleSigValid sampleKey.secret sampleChallenge.nonce (Assertion.mk 104 10) = true ∧
    sampleSigValid sampleKey.secret sampleChallenge.nonce (Assertion.mk 0 10) = false ∧
    (verifyWebAuthn sampleSigValid sampleKey sampleChallenge (Assertion.mk 104 10)).outcome
      = Outcome.Replayed ∧
    (verifyWebAuthn sampleSigValid sampleKey sampleChallenge (Assertion.mk 0 10)).outcome
      = Outcome.Replayed ∧
    (verifyWebAuthn sampleSigValid sampleKey sampleChallenge (Assertion.mk 104 11)).outcome
      = Outcome.Accepted ∧
    ∃ st', verifyWebAuthnStored sampleSigValid sampleStore sampleKey.credentialId
          sampleChallenge (Assertion.mk 104 11)
        = (verifyWebAuthn sampleSigValid sampleKey sampleChallenge (Assertion.mk 104 11), st') ∧
      st' sampleKey.credentialId = some { sampleKey with counter := 11 } :=
  ⟨by decide, by decide,
    ((verifyWebAuthn_replay_detection sampleSigValid sampleKey sampleChallenge
      (Assertion.mk 104 10)).1 (by decide)).1,
    ((verifyWebAuthn_replay_detection sampleSigValid sampleKey sampleChallenge
      (Assertion.mk 0 10)).1 (by decide)).1,
    by decide,
    ((verifyWebAuthn_replay_detection sampleSigValid sampleKey sampleChallenge
      (Assertion.mk 104 11)).2.2 (by decide)).2 sampleStore (by decide)⟩

/-! ## OTP -/

/-- C6: for every OTP Challenge whose `expiresAt` has passed at verification time and
every submitted code, whatever the state of the Challenge table and whether or not
the code hashes to the stored hash, verification returns `Expired`, not `Mismatch`
and not `Accepted`, and leaves the Challenge table as it was. -/
theorem verifyOtp_expired (hash : Nat → Nat) (tbl : ChallengeTable) (now : Nat)
    (f : EnrolledFactor) (ch : Challenge) (code : Nat) (hexp : ch.expiresAt < now) :
    (verifyOtp hash tbl now f ch code).1 = Outcome.Expired ∧
    (verifyOtp hash tbl now f ch code).1 ≠ Outcome.Mismatch ∧
    (verifyOtp hash tbl now f ch code).1 ≠ Outcome.Accepted ∧
    (verifyOtp hash tbl now f ch code).2 = tbl := by
  simp [verifyOtp, hexp]

/-- Instance of C6: the sample OTP challenge expires at 300; at time 301 the correct
code 4711 is `Expired`, although at time 300 it is `Accepted` and the wrong code 1 a
`Mismatch`. -/
theorem verifyOtp_expired_witness :
    sampleOtpChallenge.expiresAt < 301 ∧
    sampleHash 4711 = sampleOtpFactor.secret ∧
    (verifyOtp sampleHash (issue emptyTable sampleOtpChallenge) 300 sampleOtpFactor
      sampleOtpChallenge 4711).1 = Outcome.Accepted ∧
    (verifyOtp sampleHash (issue emptyTable sampleOtpChallenge) 300 sampleOtpFactor
      sampleOtpChallenge 1).1 = Outcome.Mismatch ∧
    (verifyOtp sampleHash (issue emptyTable sampleOtpChallenge) 301 sampleOtpFactor
      sampleOtpChallenge 4711).1 = Outcome.Expired :=
  ⟨by decide, by decide, by decide, by decide,
    (verifyOtp_expired sampleHash (issue emptyTable sampleOtpChallenge) 301 sampleOtpFactor
      sampleOtpChallenge 4711 (by decide)).1⟩

/-! ## TOTP -/

/-- The window holds exactly the steps within `skew` of the current step. -/
theorem mem_totpWindow (skew now t : Nat) :
    t ∈ totpWindow skew now ↔ now ≤ t + skew ∧ t ≤ now + skew := by
  unfold totpWindow
  rw [List.mem_range'_1]
  omega

/-- The window has at most `2 * skew + 1` steps. -/
theorem totpWindow_length_le (skew now : Nat) :
    (totpWindow skew now).length ≤ 2 * skew + 1 := by
  unfold totpWindow
  rw [List.length_range']
  omega

/-- A code that matches a step of the window, none of whose matching steps is marked,
is accepted, and the matching steps are marked. -/
theorem verifyTotp_accept (totp : Nat → Nat → Nat) (skew : Nat) (f : EnrolledFactor)
    (now code t : Nat) (ht : t ∈ totpWindow skew now) (hc : totp f.secret t = code)
    (hfresh : ∀ u ∈ f.usedSteps, totp f.secret u ≠ code) :
    verifyTotp totp skew f now code =
      (Outcome.Accepted,
        { f with usedSteps :=
            (totpWindow skew now).filter (fun u => totp f.secret u == code) ++ f.usedSteps }) := by
  have hmem : t ∈ (totpWindow skew now).filter (fun u => totp f.secret u == code) := by
    simp [List.mem_filter, ht, hc]
  have hne : ((totpWindow skew now).filter (fun u => totp f.secret u == code)).isEmpty = false := by
    cases h : (totpWindow skew now).filter (fun u => totp f.secret u == code) with
    | nil => rw [h] at hmem; simp at hmem
    | cons x xs => rfl
  have hany : ((totpWindow skew now).filter (fun u => totp f.secret u == code)).any
      (fun u => decide (u ∈ f.usedSteps)) = false := by
    rw [List.any_eq_false]
    intro u hu
    simp only [List.mem_filter, beq_iff_eq] at hu
    simpa using fun hmem' => hfresh u hmem' hu.2
  simp only [verifyTotp, hne, hany, Bool.false_eq_true, if_false]

/-- A code that matches a marked step of the window is `Replayed`. -/
theorem verifyTotp_replayed (totp : Nat → Nat → Nat) (skew : Nat) (f : EnrolledFactor)
    (now code t : Nat) (ht : t ∈ totpWindow skew now) (hc : totp f.secret t = code)
    (hused : t ∈ f.usedSteps) :
    verifyTotp totp skew f now code = (Outcome.Replayed, f) := by
  have hmem : t ∈ (totpWindow skew now).filter (fun u => totp f.secret u == code) := by
    simp [List.mem_filter, ht, hc]
  have hne : ((totpWindow skew now).filter (fun u => totp f.secret u == code)).isEmpty = false := by
    cases h : (totpWindow skew now).filter (fun u => totp f.secret u == code) with
    | nil => rw [h] at hmem; simp at hmem
    | cons x xs => rfl
  have hany : ((totpWindow skew now).filter (fun u => totp f.secret u == code)).any
      (fun u => decide (u ∈ f.usedSteps)) = true := by
    rw [List.any_eq_true]
    exact ⟨t, hmem, by simpa using hused⟩
  simp only [verifyTotp, hne, hany, Bool.false_eq_true, if_false, if_true]

/-- An accepted code is the code of a step of the window. -/
theorem verifyTotp_accepted_in_window (totp : Nat → Nat → Nat) (skew : Nat)
    (f : EnrolledFactor) (now code : Nat)
    (h : (verifyTotp totp skew f now code).1 = Outcome.Accepted) :
    ∃ t ∈ totpWindow skew now, totp f.secret t = code := by
  by_contra hno
  push_neg at hno
  have hnil : (totpWindow skew now).filter (fun u => totp f.secret u == code) = [] := by
    rw [List.filter_eq_nil_iff]
    intro u hu
    simpa using hno u hu
  simp [verifyTotp, hnil] at h

/-- C5: with the window of one step either side, for every enrolled TOTP secret and
every time-step `T`, the code derived for `T`, not accepted before, is `Accepted` when
submitted at a current time-step `now` among `T-1`, `T`, `T+1`; resubmitted afterwards
at any current time-step among `T-1`, `T`, `T+1` it is `Replayed`; and the window
checked is bounded: it has at most three steps, and whatever is accepted is the code
of the current step, the one before or the one after. -/
theorem verifyTotp_window_and_single_use (totp : Nat → Nat → Nat) (f : EnrolledFactor)
    (T now : Nat) (hnow : now + 1 = T ∨ now = T ∨ now = T + 1)
    (hfirst : ∀ u ∈ f.usedSteps, totp f.secret u ≠ totp f.secret T) :
    (verifyTotp totp 1 f now (totp f.secret T)).1 = Outcome.Accepted ∧
    (∀ now', (now' + 1 = T ∨ now' = T ∨ now' = T + 1) →
      (verifyTotp totp 1 (verifyTotp totp 1 f now (totp f.secret T)).2 now'
        (totp f.secret T)).1 = Outcome.Replayed) ∧
    (∀ (g : EnrolledFactor) (n code : Nat),
      (totpWindow 1 n).length ≤ 3 ∧
      ((verifyTotp totp 1 g n code).1 = Outcome.Accepted →
        ∃ t, (t + 1 = n ∨ t = n ∨ t = n + 1) ∧ totp g.secret t = code)) := by
  have hT : T ∈ totpWindow 1 now := (mem_totpWindow 1 now T).mpr (by omega)
  have hacc := verifyTotp_accept totp 1 f now (totp f.secret T) T hT rfl hfirst
  refine ⟨by rw [hacc], ?_, ?_⟩
  · intro now' hnow'
    rw [hacc]
    have hT' : T ∈ totpWindow 1 now' := (mem_totpWindow 1 now' T).mpr (by omega)
    have hrep := verifyTotp_replayed totp 1
      { f with usedSteps :=
          (totpWindow 1 now).filter (fun u => totp f.secret u == totp f.secret T) ++ f.usedSteps }
      now' (totp f.secret T) T hT' rfl
      (List.mem_append.mpr (Or.inl (List.mem_filter.mpr ⟨hT, by simp⟩)))
    rw [hrep]
  · intro g n code
    refine ⟨totpWindow_length_le 1 n, fun h => ?_⟩
    obtain ⟨t, ht, hc⟩ := verifyTotp_accepted_in_window totp 1 g n code h
    have hw := (mem_totpWindow 1 n t).mp ht
    exact ⟨t, by omega, hc⟩

/-- Instance of C5 on the sample TOTP secret: the code of step 6 is accepted at
current step 5 on first use and `Replayed` when resubmitted at step 7. -/
theorem verifyTotp_window_and_single_use_witness :
    (5 + 1 = 6 ∨ 5 = 6 ∨ 5 = 6 + 1) ∧
    (∀ u ∈ sampleTotpFactor.usedSteps,
      sampleTotp sampleTotpFactor.secret u ≠ sampleTotp sampleTotpFactor.secret 6) ∧
    (verifyTotp sampleTotp 1 sampleTotpFactor 5 (sampleTotp sampleTotpFactor.secret 6)).1
      = Outcome.Accepted ∧
    (verifyTotp sampleTotp 1
      (verifyTotp sampleTotp 1 sampleTotpFactor 5 (sampleTotp sampleTotpFactor.secret 6)).2 7
        (sampleTotp sampleTotpFactor.secret 6)).1 = Outcome.Replayed :=
  ⟨by decide, by decide,
    (verifyTotp_window_and_single_use sampleTotp sampleTotpFactor 6 5 (by decide)
      (by decide)).1,
    (verifyTotp_window_and_single_use sampleTotp sampleTotpFactor 6 5 (by decide)
      (by decide)).2.1 7 (by decide)⟩

/-! ## Factor Coordinator -/

/-- C7: with attempt limit 3, three consecutive `Mismatch` outcomes of a login attempt
leave it in the terminal `Rejected` state with `LockedOut` semantics, and a fourth
response returns `LockedOut` whatever the response and whatever the Verifier would
say of it; in general a `Mismatch` returns an attempt to `AwaitingFactor` exactly
while the mismatches, this one included, are fewer than the attempt limit, and
locks it out otherwise. -/
theorem lockout_after_attempt_limit {ρ : Type} (verify : ρ → Outcome) (r₁ r₂ r₃ : ρ)
    (h₁ : verify r₁ = Outcome.Mismatch) (h₂ : verify r₂ = Outcome.Mismatch)
    (h₃ : verify r₃ = Outcome.Mismatch) :
    (∃ a₀ a₁ a₂ a₃ : Attempt,
      startChallenge (Attempt.fresh 3) = some a₀ ∧
      submitResponse verify a₀ r₁ = some (Outcome.Mismatch, a₁) ∧
      a₁.state = CoordState.AwaitingFactor ∧
      submitResponse verify a₁ r₂ = some (Outcome.Mismatch, a₂) ∧
      a₂.state = CoordState.AwaitingFactor ∧
      submitResponse verify a₂ r₃ = some (Outcome.Mismatch, a₃) ∧
      a₃.state = CoordState.Rejected Outcome.LockedOut ∧
      ∀ (verify' : ρ → Outcome) (r₄ : ρ),
        submitResponse verify' a₃ r₄ = some (Outcome.LockedOut, a₃)) ∧
    (∀ (a : Attempt) (v : ρ → Outcome) (r : ρ),
      a.state = CoordState.AwaitingFactor → v r = Outcome.Mismatch →
      ∃ a', submitResponse v a r = some (Outcome.Mismatch, a') ∧
        a'.mismatches = a.mismatches + 1 ∧
        (a'.state = CoordState.AwaitingFactor ↔ a.mismatches + 1 < a.attemptLimit) ∧
        (a'.state = CoordState.Rejected Outcome.LockedOut ↔
          ¬ a.mismatches + 1 < a.attemptLimit)) := by
  constructor
  · refine ⟨⟨.AwaitingFactor, 0, 3⟩, ⟨.AwaitingFactor, 1, 3⟩, ⟨.AwaitingFactor, 2, 3⟩,
      ⟨.Rejected .LockedOut, 3, 3⟩, rfl, ?_, rfl, ?_, rfl, ?_, rfl, fun _ _ => rfl⟩
    · simp [submitResponse, onVerdict, h₁]
    · simp [submitResponse, onVerdict, h₂]
    · simp [submitResponse, onVerdict, h₃]
  · intro a v r hs hv
    by_cases hlt : a.mismatches + 1 < a.attemptLimit
    · exact ⟨{ a with state := .AwaitingFactor, mismatches := a.mismatches + 1 },
        by simp [submitResponse, onVerdict, hs, hv, hlt], rfl, by simp [hlt], by simp [hlt]⟩
    · exact ⟨{ a with state := .Rejected .LockedOut, mismatches := a.mismatches + 1 },
        by simp [submitResponse, onVerdict, hs, hv, hlt], rfl, by simp [hlt], by simp [hlt]⟩

/-- Instance of C7: after the wrong codes 1, 2 and 3 the correct code 4711 is answered
with `LockedOut`. -/
theorem lockout_after_attempt_limit_witness :
    (sampleVerify 1 = Outcome.Mismatch ∧ sampleVerify 2 = Outcome.Mismatch ∧
      sampleVerify 3 = Outcome.Mismatch ∧ sampleVerify 4711 = Outcome.Accepted) ∧
    ∃ a₀ a₁ a₂ a₃ : Attempt,
      startChallenge (Attempt.fresh 3) = some a₀ ∧
      submitResponse sampleVerify a₀ 1 = some (Outcome.Mismatch, a₁) ∧
      a₁.state = CoordState.AwaitingFactor ∧
      submitResponse sampleVerify a₁ 2 = some (Outcome.Mismatch, a₂) ∧
      a₂.state = CoordState.AwaitingFactor ∧
      submitResponse sampleVerify a₂ 3 = some (Outcome.Mismatch, a₃) ∧
      a₃.state = CoordState.Rejected Outcome.LockedOut ∧
      ∀ (verify' : Nat → Outcome) (r₄ : Nat),
        submitResponse verify' a₃ r₄ = some (Outcome.LockedOut, a₃) :=
  ⟨by decide,
    (lockout_after_attempt_limit sampleVerify 1 2 3 (by decide) (by decide) (by decide)).1⟩

/-! ## Challenge consumption -/

/-- The winners after one more result. -/
theorem winners_append_one (cid k o : Nat) (b : Bool) (rs : List (Nat × Nat × Bool)) :
    winners cid (rs ++ [(k, o, b)]) =
      winners cid rs ++ (if o = cid ∧ b = true then [k] else []) := by
  by_cases h : o = cid ∧ b = true
  · simp [winners, List.filter_append, List.filter_cons, h]
  · rw [if_neg h]
    have : (o == cid && b) = false := by
      cases b <;> simp_all
    simp [winners, List.filter_append, List.filter_cons, this]

/-- The losers after one more result. -/
theorem losers_append_one (cid k o : Nat) (b : Bool) (rs : List (Nat × Nat × Bool)) :
    losers cid (rs ++ [(k, o, b)]) =
      losers cid rs ++ (if o = cid ∧ b = false then [k] else []) := by
  by_cases h : o = cid ∧ b = false
  · simp [losers, List.filter_append, List.filter_cons, h]
  · rw [if_neg h]
    have : (o == cid && !b) = false := by
      cases b <;> simp_all
    simp [losers, List.filter_append, List.filter_cons, this]

/-- Winners and losers of a challenge are together the results for it. -/
theorem winners_add_losers (cid : Nat) (rs : List (Nat × Nat × Bool)) :
    (winners cid rs).length + (losers cid rs).length
      = (rs.filter (fun r => r.2.1 == cid)).length := by
  induction rs with
  | nil => rfl
  | cons r rest ih =>
      obtain ⟨k, o, b⟩ := r
      by_cases ho : o = cid
      · cases b <;> simp [winners, losers, List.filter_cons, ho] at ih ⊢ <;> omega
      · simpa [winners, losers, List.filter_cons, ho] using ih

/-- Consuming a spent challenge fails and changes nothing. -/
theorem consume_spent (tbl : ChallengeTable) (cid : Nat) (h : spent tbl cid) :
    consume tbl cid = (false, tbl) := by
  unfold consume
  cases hc : tbl cid with
  | none => rfl
  | some c => simp [h c hc]

/-- Consuming an unconsumed challenge succeeds and leaves it consumed. -/
theorem consume_fresh (tbl : ChallengeTable) (cid : Nat) (c : Challenge)
    (hc : tbl cid = some c) (hu : c.consumed = false) :
    (consume tbl cid).1 = true ∧
      (consume tbl cid).2 cid = some { c with consumed := true } := by
  unfold consume
  rw [hc]
  simp [hu]

/-- Consuming one challenge leaves the entries of the others as they were. -/
theorem consume_other (tbl : ChallengeTable) (cid other : Nat) (hne : other ≠ cid) :
    (consume tbl other).2 cid = tbl cid := by
  unfold consume
  cases hc : tbl other with
  | none => rfl
  | some c =>
      by_cases hcons : c.consumed = true
      · simp [hcons]
      · simp [hcons, Ne.symm hne]

/-- A return of a caller that had not returned keeps results and phases in step. -/
theorem logInv_finish {target : Nat → Nat} {s : Race} (h : LogInv target s) (k : Nat)
    (tbl : ChallengeTable) (won : Bool) (hk : ∀ b, s.phase k ≠ Phase.done b) :
    LogInv target (s.finish k (target k) tbl won) := by
  have hnot : ∀ r ∈ s.results, r.1 ≠ k := by
    intro r hr hrk
    exact hk r.2.2 (hrk ▸ (h.sound r hr).1)
  refine ⟨?_, ?_, ?_⟩
  · intro r hr
    simp only [Race.finish, List.mem_append, List.mem_singleton] at hr ⊢
    rcases hr with hr | hr
    · rw [if_neg (hnot r hr)]
      exact h.sound r hr
    · subst hr
      simp
  · intro j b hj
    simp only [Race.finish] at hj ⊢
    by_cases hjk : j = k
    · subst hjk
      simp only [if_true, Phase.done.injEq] at hj
      subst hj
      simp
    · rw [if_neg hjk] at hj
      exact List.mem_append_left _ (h.complete j b hj)
  · simp only [Race.finish, List.map_append, List.map_cons, List.map_nil]
    rw [List.nodup_append]
    refine ⟨h.once, by simp, ?_⟩
    intro a ha ha'
    simp only [List.mem_singleton] at ha'
    subst ha'
    obtain ⟨r, hr, hra⟩ := List.mem_map.mp ha
    exact hnot r hr hra

/-- Every step keeps results and phases in step. -/
theorem logInv_step {target : Nat → Nat} {s : Race} (h : LogInv target s) (k : Nat) :
    LogInv target (consumeStep target s k) := by
  unfold consumeStep
  cases hp : s.phase k with
  | start =>
      have hk : ∀ b, s.phase k ≠ Phase.done b := by simp [hp]
      cases ht : s.table (target k) with
      | none => exact logInv_finish h k _ _ hk
      | some c =>
          by_cases hc : c.consumed = true
          · simp only [hc, if_true]
            exact logInv_finish h k _ _ hk
          · simp only [hc, Bool.false_eq_true, if_false]
            have hnot : ∀ r ∈ s.results, r.1 ≠ k := by
              intro r hr hrk
              exact hk r.2.2 (hrk ▸ (h.sound r hr).1)
            refine ⟨?_, ?_, h.once⟩
            · intro r hr
              simp only [if_neg (hnot r hr)]
              exact h.sound r hr
            · intro j b hj
              by_cases hjk : j = k
              · simp [hjk] at hj
              · simp only [if_neg hjk] at hj
                exact h.complete j b hj
  | found =>
      have hk : ∀ b, s.phase k ≠ Phase.done b := by simp [hp]
      exact logInv_finish h k _ _ hk
  | done b => exact h

/-- Every step keeps the table and the results in agreement on challenge `cid`. -/
theorem flagInv_step {target : Nat → Nat} {cid : Nat} {s : Race}
    (h : FlagInv target cid s) (k : Nat) : FlagInv target cid (consumeStep target s k) := by
  obtain ⟨c₀, hc₀⟩ := h.present
  unfold consumeStep
  cases hp : s.phase k with
  | start =>
      cases ht : s.table (target k) with
      | none =>
          have hne : target k ≠ cid := by
            intro he
            rw [he, hc₀] at ht
            cases ht
          refine ⟨⟨c₀, hc₀⟩, ?_, ?_⟩
          · intro c hc hu
            obtain ⟨hw, hd⟩ := h.unconsumed c hc hu
            refine ⟨by simp [Race.finish, winners_append_one, hw], ?_⟩
            intro j b hj
            have hjk : j ≠ k := fun he => hne (he ▸ hj)
            simpa [Race.finish, hjk] using hd j b hj
          · intro c hc hu
            simpa [Race.finish, winners_append_one] using h.consumed c hc hu
      | some c₁ =>
          by_cases hcons : c₁.consumed = true
          · simp only [hcons, if_true]
            refine ⟨⟨c₀, hc₀⟩, ?_, ?_⟩
            · intro c hc hu
              obtain ⟨hw, hd⟩ := h.unconsumed c hc hu
              refine ⟨by simp [Race.finish, winners_append_one, hw], ?_⟩
              intro j b hj
              have hjk : j ≠ k := by
                intro he
                subst he
                rw [hj] at ht
                simp only [Race.finish] at hc
                rw [hc] at ht
                cases ht
                rw [hcons] at hu
                cases hu
              simpa [Race.finish, hjk] using hd j b hj
            · intro c hc hu
              simpa [Race.finish, winners_append_one] using h.consumed c hc hu
          · simp only [hcons, Bool.false_eq_true, if_false]
            refine ⟨⟨c₀, hc₀⟩, ?_, ?_⟩
            · intro c hc hu
              obtain ⟨hw, hd⟩ := h.unconsumed c hc hu
              refine ⟨hw, ?_⟩
              intro j b hj
              by_cases hjk : j = k
              · simp [hjk]
              · simpa [hjk] using hd j b hj
            · intro c hc hu
              exact h.consumed c hc hu
  | found =>
      by_cases hne : target k = cid
      · by_cases hcons : c₀.consumed = true
        · have hsp : spent s.table (target k) := by
            intro c hc
            rw [hne, hc₀] at hc
            cases hc
            exact hcons
          rw [consume_spent _ _ hsp]
          refine ⟨⟨c₀, hc₀⟩, ?_, ?_⟩
          · intro c hc hu
            simp only [Race.finish] at hc
            rw [hc₀] at hc
            cases hc
            rw [hcons] at hu
            cases hu
          · intro c hc hu
            simpa [Race.finish, winners_append_one] using h.consumed c hc hu
        · have hu₀ : c₀.consumed = false := by simpa using hcons
          obtain ⟨hwin, htbl⟩ := consume_fresh s.table cid c₀ hc₀ hu₀
          obtain ⟨hw, _⟩ := h.unconsumed c₀ hc₀ hu₀
          rw [hne]
          refine ⟨⟨_, htbl⟩, ?_, ?_⟩
          · intro c hc hu
            simp only [Race.finish] at hc
            rw [htbl] at hc
            cases hc
            cases hu
          · intro c _ _
            simp [Race.finish, winners_append_one, hw, hwin]
      · have htbl := consume_other s.table cid (target k) hne
        refine ⟨⟨c₀, by simp only [Race.finish]; rw [htbl]; exact hc₀⟩, ?_, ?_⟩
        · intro c hc hu
          simp only [Race.finish] at hc
          rw [htbl] at hc
          obtain ⟨hw, hd⟩ := h.unconsumed c hc hu
          refine ⟨by simp [Race.finish, winners_append_one, hw, hne], ?_⟩
          intro j b hj
          have hjk : j ≠ k := fun he => hne (he ▸ hj)
          simpa [Race.finish, hjk] using hd j b hj
        · intro c hc hu
          simp only [Race.finish] at hc
          rw [htbl] at hc
          simpa [Race.finish, winners_append_one, hne] using h.consumed c hc hu
  | done b => exact h

/-- Both invariants hold throughout a pattern. -/
theorem runRace_inv {target : Nat → Nat} {cid : Nat} (sched : List Nat) {s : Race}
    (hl : LogInv target s) (hf : FlagInv target cid s) :
    LogInv target (runRace target s sched) ∧ FlagInv target cid (runRace target s sched) := by
  induction sched generalizing s with
  | nil => exact ⟨hl, hf⟩
  | cons k rest ih => exact ih (logInv_step hl k) (flagInv_step hf k)

/-- A caller that has returned keeps its result. -/
theorem consumeStep_done (target : Nat → Nat) (s : Race) (j k : Nat) (b : Bool)
    (hk : s.phase k = Phase.done b) : (consumeStep target s j).phase k = Phase.done b := by
  unfold consumeStep
  cases hp : s.phase j with
  | start =>
      have hne : k ≠ j := by
        intro he
        subst he
        rw [hk] at hp
        cases hp
      cases ht : s.table (target j) with
      | none => simpa [Race.finish, hne] using hk
      | some c =>
          by_cases hc : c.consumed = true
          · simpa [Race.finish, hne, hc] using hk
          · simpa [hne, hc] using hk
  | found =>
      have hne : k ≠ j := by
        intro he
        subst he
        rw [hk] at hp
        cases hp
      simpa [Race.finish, hne] using hk
  | done b' => simpa using hk

/-- A caller that has returned keeps its result to the end of any pattern. -/
theorem runRace_done (target : Nat → Nat) (later : List Nat) (s : Race) (k : Nat) (b : Bool)
    (hk : s.phase k = Phase.done b) : (runRace target s later).phase k = Phase.done b := by
  induction later generalizing s with
  | nil => exact hk
  | cons j rest ih => exact ih _ (consumeStep_done target s j k b hk)

/-- A step only adds to the results. -/
theorem consumeStep_results (target : Nat → Nat) (s : Race) (k : Nat) :
    ∃ extra, (consumeStep target s k).results = s.results ++ extra := by
  unfold consumeStep
  cases hp : s.phase k with
  | start =>
      cases ht : s.table (target k) with
      | none => exact ⟨_, rfl⟩
      | some c =>
          by_cases hc : c.consumed = true
          · simp only [hc, if_true]
            exact ⟨_, rfl⟩
          · simp only [hc, Bool.false_eq_true, if_false]
            exact ⟨[], by simp⟩
  | found => exact ⟨_, rfl⟩
  | done b => exact ⟨[], by simp⟩

/-- A pattern only adds to the results. -/
theorem runRace_results (target : Nat → Nat) (later : List Nat) (s : Race) :
    ∃ extra, (runRace target s later).results = s.results ++ extra := by
  induction later generalizing s with
  | nil => exact ⟨[], by simp [runRace]⟩
  | cons j rest ih =>
      obtain ⟨e₁, h₁⟩ := consumeStep_results target s j
      obtain ⟨e₂, h₂⟩ := ih (consumeStep target s j)
      exact ⟨e₁ ++ e₂, by simp only [runRace]; rw [h₂, h₁, List.append_assoc]⟩

/-- The winners of a concatenation. -/
theorem winners_append (cid : Nat) (rs ts : List (Nat × Nat × Bool)) :
    winners cid (rs ++ ts) = winners cid rs ++ winners cid ts := by
  simp [winners, List.filter_append]

/-- At most one winner; exactly one once a caller of the challenge has returned. -/
theorem flagInv_winners {target : Nat → Nat} {cid : Nat} {s : Race}
    (h : FlagInv target cid s) :
    (winners cid s.results).length ≤ 1 ∧
    ((∃ k b, target k = cid ∧ s.phase k = Phase.done b) →
      (winners cid s.results).length = 1) := by
  obtain ⟨c, hc⟩ := h.present
  by_cases hu : c.consumed = true
  · have := h.consumed c hc hu
    exact ⟨by omega, fun _ => this⟩
  · have hu' : c.consumed = false := by simpa using hu
    obtain ⟨hw, hd⟩ := h.unconsumed c hc hu'
    refine ⟨by simp [hw], ?_⟩
    rintro ⟨k, b, hk, hp⟩
    exact absurd hp (hd k b hk)

/-- The race on a freshly issued Challenge starts within both invariants. -/
theorem init_inv (target : Nat → Nat) (tbl : ChallengeTable) (ch : Challenge) :
    LogInv target (Race.init (issue tbl ch)) ∧
    FlagInv target ch.id (Race.init (issue tbl ch)) := by
  refine ⟨⟨?_, ?_, ?_⟩, ⟨?_, ?_, ?_⟩⟩
  · intro r hr
    simp [Race.init] at hr
  · intro k b hk
    simp [Race.init] at hk
  · simp [Race.init]
  · exact ⟨{ ch with consumed := false }, by simp [Race.init, issue]⟩
  · intro c _ _
    refine ⟨rfl, ?_⟩
    intro k b _
    simp [Race.init]
  · intro c hc hu
    simp only [Race.init, issue, if_true, Option.some.injEq] at hc
    subst hc
    cases hu

/-- A step of one caller leaves the phases of the others as they were. -/
theorem consumeStep_other (target : Nat → Nat) (s : Race) (j k : Nat) (hne : k ≠ j) :
    (consumeStep target s j).phase k = s.phase k := by
  unfold consumeStep
  cases hp : s.phase j with
  | start =>
      cases ht : s.table (target j) with
      | none => simp [Race.finish, hne]
      | some c =>
          by_cases hc : c.consumed = true
          · simp [Race.finish, hne, hc]
          · simp [hne, hc]
  | found => simp [Race.finish, hne]
  | done b => rfl

/-- A caller that has read the table returns with its next step. -/
theorem runRace_returns_found (target : Nat → Nat) (sched : List Nat) (s : Race) (k : Nat)
    (hk : s.phase k = Phase.found) (hcount : 1 ≤ sched.count k) :
    ∃ b, (runRace target s sched).phase k = Phase.done b := by
  induction sched generalizing s with
  | nil => simp at hcount
  | cons j rest ih =>
      by_cases hjk : j = k
      · subst hjk
        have : (consumeStep target s j).phase j
            = Phase.done (consume s.table (target j)).1 := by
          simp [consumeStep, hk, Race.finish]
        exact ⟨_, runRace_done target rest _ j _ this⟩
      · have hcount' : 1 ≤ rest.count k := by
          simpa [List.count_cons, hjk] using hcount
        exact ih _ (by rw [consumeStep_other target s j k (Ne.symm hjk)]; exact hk) hcount'

/-- Every caller returns with its second step at the latest. -/
theorem runRace_returns (target : Nat → Nat) (sched : List Nat) (s : Race) (k : Nat)
    (hk : s.phase k = Phase.start) (hcount : 2 ≤ sched.count k) :
    ∃ b, (runRace target s sched).phase k = Phase.done b := by
  induction sched generalizing s with
  | nil => simp at hcount
  | cons j rest ih =>
      by_cases hjk : j = k
      · subst hjk
        have hcount' : 1 ≤ rest.count j := by
          simp only [List.count_cons_self] at hcount
          omega
        cases hp : (consumeStep target s j).phase j with
        | start =>
            exfalso
            revert hp
            unfold consumeStep
            rw [hk]
            cases ht : s.table (target j) with
            | none => simp [Race.finish]
            | some c =>
                by_cases hc : c.consumed = true
                · simp [Race.finish, hc]
                · simp [hc]
        | found => exact runRace_returns_found target rest _ j hp hcount'
        | done b => exact ⟨b, runRace_done target rest _ j b hp⟩
      · have hcount' : 2 ≤ rest.count k := by
          simpa [List.count_cons, hjk] using hcount
        exact ih _ (by rw [consumeStep_other target s j k (Ne.symm hjk)]; exact hk) hcount'

/-- C8: for every issued Challenge, every assignment of callers to challenge ids and
every concurrency pattern (any order of the callers' steps, the read and the
compare-and-swap of one caller separated by steps of the others), at most one caller
of the Challenge succeeds; every caller returns with its second step at the latest
and has exactly one result; and once any caller of the Challenge has returned,
exactly one caller of it has observed the transition and succeeded, every other
returned caller of it has failed, and whatever steps follow, the winners stay the
same: every later caller fails. -/
theorem consume_exactly_one_winner (tbl : ChallengeTable) (ch : Challenge)
    (target : Nat → Nat) (sched : List Nat) :
    (winners ch.id (runRace target (Race.init (issue tbl ch)) sched).results).length ≤ 1 ∧
    (∀ k, 2 ≤ sched.count k →
      ∃ b, (runRace target (Race.init (issue tbl ch)) sched).phase k = Phase.done b) ∧
    ((runRace target (Race.init (issue tbl ch)) sched).results.map Prod.fst).Nodup ∧
    (∀ k b, (runRace target (Race.init (issue tbl ch)) sched).phase k = Phase.done b ↔
      (k, target k, b) ∈ (runRace target (Race.init (issue tbl ch)) sched).results) ∧
    ((∃ k b, target k = ch.id ∧
        (runRace target (Race.init (issue tbl ch)) sched).phase k = Phase.done b) →
      (winners ch.id (runRace target (Race.init (issue tbl ch)) sched).results).length = 1 ∧
      (losers ch.id (runRace target (Race.init (issue tbl ch)) sched).results).length + 1
        = ((runRace target (Race.init (issue tbl ch)) sched).results.filter
            (fun r => r.2.1 == ch.id)).length ∧
      ∀ later : List Nat,
        winners ch.id
            (runRace target (runRace target (Race.init (issue tbl ch)) sched) later).results
          = winners ch.id (runRace target (Race.init (issue tbl ch)) sched).results) := by
  obtain ⟨hl₀, hf₀⟩ := init_inv target tbl ch
  obtain ⟨hl, hf⟩ := runRace_inv sched hl₀ hf₀
  refine ⟨(flagInv_winners hf).1, ?_, hl.once, ?_, ?_⟩
  · intro k hcount
    exact runRace_returns target sched _ k rfl hcount
  · intro k b
    constructor
    · exact hl.complete k b
    · intro hmem
      exact (hl.sound _ hmem).1
  · intro hdone
    have hone := (flagInv_winners hf).2 hdone
    have hsum := winners_add_losers ch.id
      (runRace target (Race.init (issue tbl ch)) sched).results
    refine ⟨hone, by omega, ?_⟩
    intro later
    obtain ⟨k, b, hk, hp⟩ := hdone
    obtain ⟨_, hf'⟩ := runRace_inv later hl hf
    have hone' := (flagInv_winners hf').2 ⟨k, b, hk, runRace_done target later _ k b hp⟩
    obtain ⟨extra, hex⟩ := runRace_results target later
      (runRace target (Race.init (issue tbl ch)) sched)
    rw [hex, winners_append] at hone' ⊢
    rw [List.length_append, hone] at hone'
    have : winners ch.id extra = [] := List.eq_nil_of_length_eq_zero (by omega)
    rw [this, List.append_nil]

/-- Instance of C8: callers 12 and 13 both read the sample OTP challenge before
either swaps; 13 swaps first and wins, 12 and the late caller 14 fail, and caller 11,
after another id, does not count. -/
theorem consume_exactly_one_winner_witness :
    (∃ k b, sampleTarget k = sampleOtpChallenge.id ∧
      (runRace sampleTarget (Race.init (issue emptyTable sampleOtpChallenge))
        sampleSchedule).phase k = Phase.done b) ∧
    (runRace sampleTarget (Race.init (issue emptyTable sampleOtpChallenge))
      sampleSchedule).results = [(11, 5, false), (13, 4, true), (12, 4, false), (14, 4, false)] ∧
    (winners sampleOtpChallenge.id
      (runRace sampleTarget (Race.init (issue emptyTable sampleOtpChallenge))
        sampleSchedule).results).length = 1 :=
  ⟨⟨13, true, by decide, by decide⟩, by decide,
    ((consume_exactly_one_winner emptyTable sampleOtpChallenge sampleTarget
      sampleSchedule).2.2.2.2 ⟨13, true, by decide, by decide⟩).1⟩

end MfaCore
